import Mathlib

/-!
Shallow embedding of the ERW estimation/simulation core.

Numbers are modelled as exact rationals; the transcendental primitives
(`exp`, `log`, `sqrt`) and the constant `pi` supplied by numpy/scipy are
abstracted into a record of numeric primitives, so every definition stays
executable and the algebraic structure of the code is preserved exactly.
-/

namespace ERW

/-- Abstract numeric primitives standing for numpy's `exp`, `log`, `sqrt`
and the constant `pi`. -/
structure NumPrims where
  exp : ℚ → ℚ
  log : ℚ → ℚ
  sqrt : ℚ → ℚ
  pi : ℚ

/-- The floor `1e-6` applied to all noise scales in
`model_state_service.extended_kalman_filter`. -/
def MIN_SIGMA : ℚ := 1 / 1000000

/-- The candidate parameter vector `[alpha_r, alpha_phi, sigma_r, sigma_phi,
sigma_lab]` of `extended_kalman_filter`. -/
structure EKFParams where
  alpha_r : ℚ
  alpha_phi : ℚ
  sigma_r : ℚ
  sigma_phi : ℚ
  sigma_lab : ℚ
deriving DecidableEq

/-- The `max(sigma, 1e-6)` flooring applied at the top of
`extended_kalman_filter` to the three noise scales. -/
def floorSigmas (p : EKFParams) : EKFParams :=
  { p with
    sigma_r := max p.sigma_r MIN_SIGMA
    sigma_phi := max p.sigma_phi MIN_SIGMA
    sigma_lab := max p.sigma_lab MIN_SIGMA }

/-- Filter state carried through the EKF loop: the two latent means, the two
variances, and the accumulated log-likelihood. -/
structure EKFState where
  eta_r : ℚ
  eta_phi : ℚ
  P_r : ℚ
  P_phi : ℚ
  logLik : ℚ
deriving DecidableEq

/-- One iteration of the loop body of `extended_kalman_filter`
(`model_state_service.py` lines 162-199): predict both channels, linearize
the observation `exp(eta_r)` at the prediction, correct the r-channel with
the Kalman gain, propagate the phi-channel untouched, and accumulate the
Gaussian log-likelihood term. `p` is expected already floored. -/
def ekfStep (pr : NumPrims) (p : EKFParams) (s : EKFState) (y : ℚ) : EKFState :=
  let eta_r_pred := s.eta_r + p.alpha_r
  let eta_phi_pred := s.eta_phi + p.alpha_phi
  let P_r_pred := s.P_r + p.sigma_r ^ 2
  let P_phi_pred := s.P_phi + p.sigma_phi ^ 2
  let h := pr.exp eta_r_pred
  let H := h
  let innovation := y - h
  let S := H ^ 2 * P_r_pred + p.sigma_lab ^ 2
  let K := H * P_r_pred / S
  { eta_r := eta_r_pred + K * innovation
    eta_phi := eta_phi_pred
    P_r := (1 - K * H) * P_r_pred
    P_phi := P_phi_pred
    logLik := s.logLik + (-(1 / 2) * (pr.log (2 * pr.pi * S) + innovation ^ 2 / S)) }

/-- The EKF forward pass: floor the sigmas once, then fold `ekfStep` over the
lab observations in order, starting from the given prior state. -/
def ekfRun (pr : NumPrims) (p : EKFParams) (init : EKFState) (ys : List ℚ) : EKFState :=
  ys.foldl (ekfStep pr (floorSigmas p)) init

/-- The prior filter state assembled by `update_state` before the pass:
means and variances from the prior, zero accumulated log-likelihood. -/
def initState (eta_r0_mean eta_r0_var eta_phi0_mean eta_phi0_var : ℚ) : EKFState :=
  { eta_r := eta_r0_mean
    eta_phi := eta_phi0_mean
    P_r := eta_r0_var
    P_phi := eta_phi0_var
    logLik := 0 }

/-- `extended_kalman_filter` as the optimizer sees it: it returns the
negated accumulated log-likelihood of the forward pass. -/
def extended_kalman_filter (pr : NumPrims) (p : EKFParams)
    (eta_r0_mean eta_r0_var eta_phi0_mean eta_phi0_var : ℚ) (ys : List ℚ) : ℚ :=
  -(ekfRun pr p (initState eta_r0_mean eta_r0_var eta_phi0_mean eta_phi0_var) ys).logLik

/-- Modelled from the spec (section 4.2, step list): one EKF step exactly as
the specification words it — predict `eta_pred = eta + alpha`,
`P_pred = P + sigma²` for both channels (prediction only for phi);
linearization `h = H = exp(eta_r_pred)`; innovation `v = y_obs - h`;
`S = H²·P_r_pred + sigma_obs²`; gain `K = H·P_r_pred / S`; correction
`eta_r = eta_r_pred + K·v`, `P_r = (1 - K·H)·P_r_pred`; and log-likelihood
contribution `-0.5·(log(2·pi·S) + v²/S)`. -/
def specEkfStep (pr : NumPrims) (p : EKFParams) (s : EKFState) (y_obs : ℚ) : EKFState :=
  let eta_r_pred := s.eta_r + p.alpha_r
  let P_r_pred := s.P_r + p.sigma_r ^ 2
  let eta_phi_pred := s.eta_phi + p.alpha_phi
  let P_phi_pred := s.P_phi + p.sigma_phi ^ 2
  let h := pr.exp eta_r_pred
  let H := pr.exp eta_r_pred
  let v := y_obs - h
  let S := H ^ 2 * P_r_pred + p.sigma_lab ^ 2
  let K := H * P_r_pred / S
  { eta_r := eta_r_pred + K * v
    eta_phi := eta_phi_pred
    P_r := (1 - K * H) * P_r_pred
    P_phi := P_phi_pred
    logLik := s.logLik - (1 / 2) * (pr.log (2 * pr.pi * S) + v ^ 2 / S) }

/-! ## The fit layer (`ModelStateService.update_state`) -/

/-- One lab uptake reading as loaded for the fit (`LabRecord` columns used
by `update_state`). -/
structure LabRecord where
  time_months : ℚ
  co2_uptake_t_per_t : ℚ
deriving DecidableEq

/-- One field removal window as loaded for the fit (`FieldRecord` columns
used by `update_state`). -/
structure FieldRecord where
  window_start : ℚ
  window_end : ℚ
  co2_removed_t_ha : ℚ
deriving DecidableEq

/-- Arithmetic mean (`np.mean`). Empty input yields `0/0 = 0`. -/
def mean (xs : List ℚ) : ℚ := xs.sum / xs.length

/-- Population variance, the square of `np.std` (ddof = 0). -/
def popVar (xs : List ℚ) : ℚ :=
  (xs.map (fun x => (x - mean xs) ^ 2)).sum / xs.length

/-- The row persisted in the `state_posteriors` table: the four latent-state
fields and the four fitted parameters stored by `update_state`
(`state_posterior.py`). -/
structure PosteriorRecord where
  eta_r0_mean : ℚ
  eta_r0_var : ℚ
  eta_phi0_mean : ℚ
  eta_phi0_var : ℚ
  alpha_r : ℚ
  alpha_phi : ℚ
  sigma_r : ℚ
  sigma_phi : ℚ
deriving DecidableEq

/-- The value columns of the `state_posteriors` table as declared in
`app/models/state_posterior.py`. -/
def statePosteriorColumns : List String :=
  ["config_id", "eta_r0_mean", "eta_r0_var", "eta_phi0_mean", "eta_phi0_var",
   "alpha_r", "alpha_phi", "sigma_r", "sigma_phi"]

/-- How `update_state` assembles the stored posterior from the optimizer's
fitted parameter vector and the final filter state of the re-run pass. -/
def posteriorOf (fitted : EKFParams) (fin : EKFState) : PosteriorRecord :=
  { eta_r0_mean := fin.eta_r
    eta_r0_var := fin.P_r
    eta_phi0_mean := fin.eta_phi
    eta_phi0_var := fin.P_phi
    alpha_r := fitted.alpha_r
    alpha_phi := fitted.alpha_phi
    sigma_r := fitted.sigma_r
    sigma_phi := fitted.sigma_phi }

/-- Result record of `scipy.optimize.minimize` as consumed by
`update_state`: the success flag, the minimizing parameter vector, and the
diagnostic message. -/
structure OptResult where
  success : Bool
  x : EKFParams
  message : String
deriving DecidableEq

/-- The optimizer used as a black box: it receives the objective, the
initial guess and the box bounds, and returns an `OptResult`. -/
def Optimizer : Type :=
  (EKFParams → ℚ) → EKFParams → List (ℚ × ℚ) → OptResult

/-- Outcome of `update_state`, one constructor per return path. -/
inductive FitOutcome where
  | errConfigNotFound : FitOutcome
  | errNoLabRecords : FitOutcome
  | errOptimizationFailed (message : String) : FitOutcome
  | ok (posterior : PosteriorRecord) (negLogLik : ℚ) : FitOutcome
deriving DecidableEq

/-- The phi-channel prior mean of `update_state`: the log of the mean field
removal rate (floored at `1e-6`) when field records exist, else `0`. -/
def phiPrior (pr : NumPrims) (fields : List FieldRecord) : ℚ :=
  match fields with
  | [] => 0
  | _ => pr.log (max (mean (fields.map (·.co2_removed_t_ha))) MIN_SIGMA)

/-- Initial parameter guess of `update_state`: zero drifts,
`sigma_r = sigma_phi = 0.1`, `sigma_lab = 0.1` times the sample standard
deviation of the observed uptakes. -/
def initialGuess (pr : NumPrims) (y_lab : List ℚ) : EKFParams :=
  { alpha_r := 0
    alpha_phi := 0
    sigma_r := 1 / 10
    sigma_phi := 1 / 10
    sigma_lab := pr.sqrt (popVar y_lab) * (1 / 10) }

/-- The box bounds passed to the optimizer by `update_state`. -/
def ekfBounds : List (ℚ × ℚ) :=
  [(-1, 1), (-1, 1), (MIN_SIGMA, 10), (MIN_SIGMA, 10), (MIN_SIGMA, 10)]

/-- `ModelStateService.update_state` (lines 84-314): load checks, prior
initialization, maximum-likelihood fit through the black-box optimizer, and
the final forward pass whose end state becomes the stored posterior.
Record loading is abstracted into the `configFound`, `labs` and `fields`
arguments. -/
def update_state (pr : NumPrims) (opt : Optimizer) (configFound : Bool)
    (labs : List LabRecord) (fields : List FieldRecord) : FitOutcome :=
  if configFound = false then .errConfigNotFound
  else
    match labs with
    | [] => .errNoLabRecords
    | l0 :: rest =>
      let y_lab := (l0 :: rest).map (·.co2_uptake_t_per_t)
      let eta_r0_mean := pr.log (max l0.co2_uptake_t_per_t MIN_SIGMA)
      let eta_r0_var : ℚ := 1
      let eta_phi0_mean := phiPrior pr fields
      let eta_phi0_var : ℚ := 1
      let result := opt
        (fun p => extended_kalman_filter pr p eta_r0_mean eta_r0_var
          eta_phi0_mean eta_phi0_var y_lab)
        (initialGuess pr y_lab) ekfBounds
      if result.success = false then .errOptimizationFailed result.message
      else
        let fin := ekfRun pr result.x
          (initState eta_r0_mean eta_r0_var eta_phi0_mean eta_phi0_var) y_lab
        .ok (posteriorOf result.x fin) (-fin.logLik)

/-! ## The simulation layer (`SimulationService.simulate`) -/

/-- Modelled from the spec: `SIMULATION_MONTHS` is imported from
`app.constants`, a module absent from the sources; section 4.3 fixes the
horizon at 120 months. -/
def SIMULATION_MONTHS : Nat := 120

/-- The tagged shape of a loaded risk-multiplier source: a per-month
sequence, a string-keyed mapping, or a single scalar — the three
`isinstance` branches of the simulation loop. -/
inductive RiskSource where
  | seq (l : List ℚ) : RiskSource
  | map (m : List (String × ℚ)) : RiskSource
  | scalar (c : ℚ) : RiskSource
deriving DecidableEq

/-- Risk-multiplier resolution for month `t` (`simulation_service.py` lines
205-218): a sequence is indexed by `t` and clamps to its last element past
the end (1.0 when empty); a mapping is looked up at key `str(t)`, then at
`"default"`, else 1.0; a scalar applies as is. -/
def resolveRisk : RiskSource → Nat → ℚ
  | .seq l, t =>
      if h : t < l.length then l.get ⟨t, h⟩
      else
        match l.getLast? with
        | some v => v
        | none => 1
  | .map m, t =>
      match m.lookup (toString t) with
      | some v => v
      | none =>
        match m.lookup "default" with
        | some d => d
        | none => 1
  | .scalar c, _ => c

/-- `scipy.special.expit`, the logistic function `1 / (1 + exp(-x))`. -/
def expit (pr : NumPrims) (x : ℚ) : ℚ := 1 / (1 + pr.exp (-x))

/-- The two latent channels carried through a simulation run. -/
structure SimState where
  eta_r : ℚ
  eta_phi : ℚ
deriving DecidableEq

/-- One month's state transition: each channel advances by its drift plus
its noise scale times a standard-normal draw (`np.random.normal(0, sigma)`
= `sigma` times a standard normal). -/
def advance (p : PosteriorRecord) (s : SimState) (zr zphi : ℚ) : SimState :=
  { eta_r := s.eta_r + p.alpha_r + p.sigma_r * zr
    eta_phi := s.eta_phi + p.alpha_phi + p.sigma_phi * zphi }

/-- The monthly removal recorded for month `t` from the advanced state:
`N_t = A·K·exp(eta_r)·expit(eta_phi)`, multiplied by the resolved risk
multiplier only when a risk source is present. -/
def monthTerm (pr : NumPrims) (A K : ℚ) (risk : Option RiskSource) (t : Nat)
    (s : SimState) : ℚ :=
  let N := A * K * pr.exp s.eta_r * expit pr s.eta_phi
  match risk with
  | none => N
  | some rs => N * resolveRisk rs t

/-- The monthly simulation loop: starting at month `t` with `m` months left,
consume two standard-normal draws per month from the stream `z` (indices
`base + 2t` and `base + 2t + 1`), advance the state, and accumulate the
month's removal. -/
def simLoop (pr : NumPrims) (p : PosteriorRecord) (A K : ℚ)
    (risk : Option RiskSource) (z : Nat → ℚ) (base : Nat) :
    Nat → Nat → SimState → ℚ → ℚ
  | _, 0, _, acc => acc
  | t, m + 1, s, acc =>
      let s' := advance p s (z (base + 2 * t)) (z (base + 2 * t + 1))
      simLoop pr p A K risk z base (t + 1) m s' (acc + monthTerm pr A K risk t s')

/-- Standard-normal draws one run consumes: two for the initial state and
two per simulated month. -/
def drawsPerRun : Nat := 2 + 2 * SIMULATION_MONTHS

/-- One Monte Carlo run (`simulation_service.py` lines 181-226): sample the
initial latent state from the posterior (`np.random.normal(mean, sqrt var)`
= mean plus `sqrt var` times a standard normal), then run the 120-month
loop and return the accumulated total. The run reads the standard-normal
stream `z` starting at index `base`. -/
def simRunTotal (pr : NumPrims) (p : PosteriorRecord) (A K : ℚ)
    (risk : Option RiskSource) (z : Nat → ℚ) (base : Nat) : ℚ :=
  let s0 : SimState :=
    { eta_r := p.eta_r0_mean + pr.sqrt p.eta_r0_var * z base
      eta_phi := p.eta_phi0_mean + pr.sqrt p.eta_phi0_var * z (base + 1) }
  simLoop pr p A K risk z (base + 2) 0 SIMULATION_MONTHS s0 0

/-- `SimulationService.simulate`'s ensemble loop: run `n_runs` independent
runs, run `i` consuming the stream window starting at `drawsPerRun * i`, and
record each total with its run index. -/
def simulate (pr : NumPrims) (p : PosteriorRecord) (A K : ℚ) (n_runs : Nat)
    (risk : Option RiskSource) (z : Nat → ℚ) : List (Nat × ℚ) :=
  (List.range n_runs).map fun i =>
    (i, simRunTotal pr p A K risk z (drawsPerRun * i))

/-- Modelled from the spec (section 4.3, step 2): the r-channel latent path
as the specification words it — at each month the previous value advances
by the drift plus Gaussian noise, starting from the run's sampled initial
state. `noise t` is the channel's noise summand for month `t`. -/
def etaRPath (p : PosteriorRecord) (init : ℚ) (noise : Nat → ℚ) : Nat → ℚ
  | 0 => init + p.alpha_r + p.sigma_r * noise 0
  | t + 1 => etaRPath p init noise t + p.alpha_r + p.sigma_r * noise (t + 1)

/-- Modelled from the spec (section 4.3, step 2): the phi-channel latent
path, advancing by its drift plus Gaussian noise each month. -/
def etaPhiPath (p : PosteriorRecord) (init : ℚ) (noise : Nat → ℚ) : Nat → ℚ
  | 0 => init + p.alpha_phi + p.sigma_phi * noise 0
  | t + 1 => etaPhiPath p init noise t + p.alpha_phi + p.sigma_phi * noise (t + 1)

/-- The month's multiplier as a factor: the resolved risk multiplier when a
source is present, else `1`. -/
def riskFactor (risk : Option RiskSource) (t : Nat) : ℚ :=
  match risk with
  | none => 1
  | some rs => resolveRisk rs t

/-! ## The summary layer (`ResultsService.summarize`) -/

/-- `np.min` over a non-empty list (0 on empty input, unreached). -/
def listMin : List ℚ → ℚ
  | [] => 0
  | x :: r => r.foldl min x

/-- `np.max` over a non-empty list (0 on empty input, unreached). -/
def listMax : List ℚ → ℚ
  | [] => 0
  | x :: r => r.foldl max x

/-- Insertion of an element into a sorted list of rationals. -/
def insertSorted (x : ℚ) : List ℚ → List ℚ
  | [] => [x]
  | y :: r => if x ≤ y then x :: y :: r else y :: insertSorted x r

/-- The ascending sort `np.percentile` performs on its input. -/
def sortRats (xs : List ℚ) : List ℚ := xs.foldr insertSorted []

/-- `np.percentile` with the default linear interpolation: sort, take the
fractional index `q/100·(n-1)`, and interpolate between its two
neighbours. -/
def percentile (xs : List ℚ) (q : ℚ) : ℚ :=
  let s := sortRats xs
  let idx : ℚ := q / 100 * ((s.length : ℚ) - 1)
  let lo : Nat := (⌊idx⌋).toNat
  let a := s.getD lo 0
  let b := s.getD (lo + 1) a
  a + (idx - (lo : ℚ)) * (b - a)

/-- `np.std` with ddof 0: the square root of the population variance. -/
def popStd (pr : NumPrims) (xs : List ℚ) : ℚ := pr.sqrt (popVar xs)

/-- Target resolution of `summarize` (lines 202-217): an explicit target
wins; otherwise the known application rate times the default multiplier;
otherwise the fallback constant. `appRate` is `none` when the configuration
is missing or its application rate is null. -/
def resolveTarget (targetOpt : Option ℚ) (appRate : Option ℚ)
    (multiplier fallback : ℚ) : ℚ :=
  match targetOpt with
  | some t => t
  | none =>
    match appRate with
    | some a => a * multiplier
    | none => fallback

/-- `np.mean(n_totals >= target)`: the fraction of totals at or above the
target. -/
def pHit (xs : List ℚ) (target : ℚ) : ℚ :=
  ((xs.filter (fun x => target ≤ x)).length : ℚ) / xs.length

/-- The statistics block returned by `summarize`. -/
structure SummaryStats where
  mean : ℚ
  std : ℚ
  min : ℚ
  max : ℚ
  p5 : ℚ
  p50 : ℚ
  p95 : ℚ
  count : Nat
  target : ℚ
  p_hit : ℚ
deriving DecidableEq

/-- Outcome of `summarize` on the stored-results path: the
"No simulation results found" error, the "No valid simulation results"
error, or the summary. -/
inductive SummOutcome where
  | errNoResults : SummOutcome
  | errNoValidResults : SummOutcome
  | ok (s : SummaryStats) : SummOutcome
deriving DecidableEq

/-- `ResultsService.summarize` on the stored-results path (lines 159-239,
with `n_runs` not supplied): drop stored rows whose total is null, fail when
no rows exist or no non-null total remains, otherwise compute every
statistic and the hit probability on the remaining totals. -/
def summarize (pr : NumPrims) (rows : List (Option ℚ))
    (targetOpt appRate : Option ℚ) (multiplier fallback : ℚ) : SummOutcome :=
  match rows with
  | [] => .errNoResults
  | _ :: _ =>
    let totals := rows.filterMap id
    if totals.length = 0 then .errNoValidResults
    else
      let target := resolveTarget targetOpt appRate multiplier fallback
      .ok
        { mean := mean totals
          std := popStd pr totals
          min := listMin totals
          max := listMax totals
          p5 := percentile totals 5
          p50 := percentile totals 50
          p95 := percentile totals 95
          count := totals.length
          target := target
          p_hit := pHit totals target }

/-- The parameter box bounds of `update_state` as a predicate. -/
def paramsInBounds (p : EKFParams) : Prop :=
  -1 ≤ p.alpha_r ∧ p.alpha_r ≤ 1 ∧ -1 ≤ p.alpha_phi ∧ p.alpha_phi ≤ 1 ∧
  MIN_SIGMA ≤ p.sigma_r ∧ p.sigma_r ≤ 10 ∧
  MIN_SIGMA ≤ p.sigma_phi ∧ p.sigma_phi ≤ 10 ∧
  MIN_SIGMA ≤ p.sigma_lab ∧ p.sigma_lab ≤ 10

instance (p : EKFParams) : Decidable (paramsInBounds p) := by
  unfold paramsInBounds; infer_instance

/-- Identity primitives used to instantiate theorems at concrete inputs. -/
def idPrims : NumPrims := ⟨fun x => x, fun x => x, fun x => x, 0⟩

/-! ## Theorems about the EKF forward pass -/

theorem ekfStep_eq_specEkfStep (pr : NumPrims) (q : EKFParams) (s : EKFState)
    (y : ℚ) : ekfStep pr q s y = specEkfStep pr q s y := by
  simp only [ekfStep, specEkfStep, EKFState.mk.injEq]
  refine ⟨trivial, trivial, trivial, trivial, ?_⟩
  ring

theorem ekfRun_take_succ (pr : NumPrims) (p : EKFParams) (init : EKFState)
    (ys : List ℚ) (i : Nat) (h : i < ys.length) :
    ekfRun pr p init (ys.take (i + 1))
      = ekfStep pr (floorSigmas p) (ekfRun pr p init (ys.take i)) (ys.get ⟨i, h⟩) := by
  unfold ekfRun
  rw [List.take_succ, List.getElem?_eq_getElem h, List.foldl_append]
  rfl

/-- C1: each step of the EKF forward pass, run on the sigma-floored
candidate parameter vector, performs exactly the predict / linearize /
innovate / correct / accumulate computation stated in the specification,
and the optimizer objective is the negated accumulated log-likelihood of
the pass. -/
theorem ekf_forward_pass_step_equations (pr : NumPrims) (p : EKFParams)
    (init : EKFState) (ys : List ℚ) (i : Nat) (h : i < ys.length) :
    ekfRun pr p init (ys.take (i + 1))
      = specEkfStep pr (floorSigmas p) (ekfRun pr p init (ys.take i)) (ys.get ⟨i, h⟩)
    ∧ (∀ a b c d : ℚ, extended_kalman_filter pr p a b c d ys
        = -(ekfRun pr p (initState a b c d) ys).logLik) := by
  constructor
  · rw [ekfRun_take_succ pr p init ys i h, ekfStep_eq_specEkfStep]
  · intro a b c d
    rfl

/-- Witness for C1 at a concrete two-observation input. -/
theorem ekf_forward_pass_step_equations_witness :
    0 < ([1, 2] : List ℚ).length
    ∧ ekfRun idPrims ⟨0, 0, 1/10, 1/10, 1/100⟩ (initState 0 1 0 1) (([1, 2] : List ℚ).take 1)
        = specEkfStep idPrims (floorSigmas ⟨0, 0, 1/10, 1/10, 1/100⟩)
            (ekfRun idPrims ⟨0, 0, 1/10, 1/10, 1/100⟩ (initState 0 1 0 1)
              (([1, 2] : List ℚ).take 0)) 1 := by
  refine ⟨by norm_num, ?_⟩
  exact (ekf_forward_pass_step_equations idPrims ⟨0, 0, 1/10, 1/10, 1/100⟩
    (initState 0 1 0 1) [1, 2] 0 (by norm_num)).1

theorem ekfStep_var_nonneg (pr : NumPrims) (q : EKFParams) (s : EKFState)
    (y : ℚ) (hq : 0 < q.sigma_lab) (hr : 0 ≤ s.P_r) (hp : 0 ≤ s.P_phi) :
    0 ≤ (ekfStep pr q s y).P_r ∧ 0 ≤ (ekfStep pr q s y).P_phi := by
  have hPp : 0 ≤ s.P_r + q.sigma_r ^ 2 := add_nonneg hr (sq_nonneg _)
  have hS : 0 < (pr.exp (s.eta_r + q.alpha_r)) ^ 2 * (s.P_r + q.sigma_r ^ 2)
      + q.sigma_lab ^ 2 :=
    add_pos_of_nonneg_of_pos (mul_nonneg (sq_nonneg _) hPp) (pow_pos hq 2)
  constructor
  · show 0 ≤ (1 - pr.exp (s.eta_r + q.alpha_r) * (s.P_r + q.sigma_r ^ 2)
        / ((pr.exp (s.eta_r + q.alpha_r)) ^ 2 * (s.P_r + q.sigma_r ^ 2) + q.sigma_lab ^ 2)
        * pr.exp (s.eta_r + q.alpha_r)) * (s.P_r + q.sigma_r ^ 2)
    set H := pr.exp (s.eta_r + q.alpha_r) with hH
    set P := s.P_r + q.sigma_r ^ 2 with hPdef
    set S := H ^ 2 * P + q.sigma_lab ^ 2 with hSdef
    have hKH : H * P / S * H = H ^ 2 * P / S := by ring
    have h1 : (1 : ℚ) - H ^ 2 * P / S = q.sigma_lab ^ 2 / S := by
      rw [one_sub_div hS.ne']
      have h2 : S - H ^ 2 * P = q.sigma_lab ^ 2 := by rw [hSdef]; ring
      rw [h2]
    rw [hKH, h1]
    exact mul_nonneg (div_nonneg (sq_nonneg _) hS.le) hPp
  · show 0 ≤ s.P_phi + q.sigma_phi ^ 2
    exact add_nonneg hp (sq_nonneg _)

theorem ekfRun_var_nonneg (pr : NumPrims) (p : EKFParams) :
    ∀ (ys : List ℚ) (init : EKFState), 0 ≤ init.P_r → 0 ≤ init.P_phi →
      0 ≤ (ekfRun pr p init ys).P_r ∧ 0 ≤ (ekfRun pr p init ys).P_phi := by
  have hq : 0 < (floorSigmas p).sigma_lab :=
    lt_of_lt_of_le (by norm_num [MIN_SIGMA]) (le_max_right _ _)
  intro ys
  induction ys with
  | nil => intro init hr hp; exact ⟨hr, hp⟩
  | cons y ys ih =>
      intro init hr hp
      have hstep := ekfStep_var_nonneg pr (floorSigmas p) init y hq hr hp
      exact ih (ekfStep pr (floorSigmas p) init y) hstep.1 hstep.2

/-- C6: for any parameter vector inside the optimizer's box bounds and any
lab observation sequence, nonnegative prior variances stay nonnegative
after every step of the EKF forward pass. -/
theorem ekf_variances_nonneg (pr : NumPrims) (p : EKFParams) (init : EKFState)
    (ys : List ℚ) (i : Nat) (hb : paramsInBounds p)
    (hr : 0 ≤ init.P_r) (hp : 0 ≤ init.P_phi) :
    0 ≤ (ekfRun pr p init (ys.take i)).P_r
    ∧ 0 ≤ (ekfRun pr p init (ys.take i)).P_phi :=
  ekfRun_var_nonneg pr p (ys.take i) init hr hp

/-- Witness for C6 at a concrete in-bounds parameter vector and input. -/
theorem ekf_variances_nonneg_witness :
    paramsInBounds ⟨0, 0, 1/10, 1/10, 1/100⟩
    ∧ (0 ≤ (ekfRun idPrims ⟨0, 0, 1/10, 1/10, 1/100⟩ (initState 0 1 0 1)
          (([1, 2] : List ℚ).take 2)).P_r
        ∧ 0 ≤ (ekfRun idPrims ⟨0, 0, 1/10, 1/10, 1/100⟩ (initState 0 1 0 1)
          (([1, 2] : List ℚ).take 2)).P_phi) :=
  ⟨by norm_num [paramsInBounds, MIN_SIGMA], ekf_variances_nonneg idPrims ⟨0, 0, 1/10, 1/10, 1/100⟩
    (initState 0 1 0 1) [1, 2] 2 (by norm_num [paramsInBounds, MIN_SIGMA])
    (by norm_num [initState]) (by norm_num [initState])⟩

theorem ekfRun_phi_closed_form (pr : NumPrims) (p : EKFParams) :
    ∀ (ys : List ℚ) (init : EKFState),
      (ekfRun pr p init ys).eta_phi = init.eta_phi + ys.length * p.alpha_phi
      ∧ (ekfRun pr p init ys).P_phi
          = init.P_phi + ys.length * (max p.sigma_phi MIN_SIGMA) ^ 2 := by
  intro ys
  induction ys with
  | nil => intro init; simp [ekfRun]
  | cons y ys ih =>
      intro init
      have hcons : ekfRun pr p init (y :: ys)
          = ekfRun pr p (ekfStep pr (floorSigmas p) init y) ys := rfl
      have h1 := (ih (ekfStep pr (floorSigmas p) init y)).1
      have h2 := (ih (ekfStep pr (floorSigmas p) init y)).2
      have hstep1 : (ekfStep pr (floorSigmas p) init y).eta_phi
          = init.eta_phi + p.alpha_phi := rfl
      have hstep2 : (ekfStep pr (floorSigmas p) init y).P_phi
          = init.P_phi + (max p.sigma_phi MIN_SIGMA) ^ 2 := rfl
      constructor
      · rw [hcons, h1, hstep1]
        push_cast [List.length_cons]
        ring
      · rw [hcons, h2, hstep2]
        push_cast [List.length_cons]
        ring

/-- C7: the phi channel is never corrected by observations — after a pass
over any observation sequence its mean is the prior mean plus `n` drifts
and its variance is the prior variance plus `n` floored noise variances, so
two sequences of equal length leave identical `eta_phi` and `P_phi`. -/
theorem ekf_phi_channel_uncorrected (pr : NumPrims) (p : EKFParams)
    (init : EKFState) (ys₁ ys₂ : List ℚ) (h : ys₁.length = ys₂.length) :
    (ekfRun pr p init ys₁).eta_phi = (ekfRun pr p init ys₂).eta_phi
    ∧ (ekfRun pr p init ys₁).P_phi = (ekfRun pr p init ys₂).P_phi
    ∧ (ekfRun pr p init ys₁).eta_phi = init.eta_phi + ys₁.length * p.alpha_phi
    ∧ (ekfRun pr p init ys₁).P_phi
        = init.P_phi + ys₁.length * (max p.sigma_phi MIN_SIGMA) ^ 2 := by
  have h1 := ekfRun_phi_closed_form pr p ys₁ init
  have h2 := ekfRun_phi_closed_form pr p ys₂ init
  refine ⟨?_, ?_, h1.1, h1.2⟩
  · rw [h1.1, h2.1, h]
  · rw [h1.2, h2.2, h]

/-- Witness for C7: two different length-2 observation sequences. -/
theorem ekf_phi_channel_uncorrected_witness :
    (ekfRun idPrims ⟨0, 1/2, 1/10, 1/10, 1/100⟩ (initState 0 1 0 1) [1, 2]).eta_phi
      = (ekfRun idPrims ⟨0, 1/2, 1/10, 1/10, 1/100⟩ (initState 0 1 0 1) [5, 7]).eta_phi
    ∧ (ekfRun idPrims ⟨0, 1/2, 1/10, 1/10, 1/100⟩ (initState 0 1 0 1) [1, 2]).P_phi
      = (ekfRun idPrims ⟨0, 1/2, 1/10, 1/10, 1/100⟩ (initState 0 1 0 1) [5, 7]).P_phi
    ∧ (ekfRun idPrims ⟨0, 1/2, 1/10, 1/10, 1/100⟩ (initState 0 1 0 1) [1, 2]).eta_phi
      = (initState 0 1 0 1).eta_phi + (([1, 2] : List ℚ).length : ℚ) * (1/2)
    ∧ (ekfRun idPrims ⟨0, 1/2, 1/10, 1/10, 1/100⟩ (initState 0 1 0 1) [1, 2]).P_phi
      = (initState 0 1 0 1).P_phi
          + (([1, 2] : List ℚ).length : ℚ) * (max (1/10) MIN_SIGMA) ^ 2 :=
  ekf_phi_channel_uncorrected idPrims ⟨0, 1/2, 1/10, 1/10, 1/100⟩
    (initState 0 1 0 1) [1, 2] [5, 7] (by decide)

/-! ## Theorems about `update_state` -/

/-- C9: calling the fit with an empty lab sequence yields the
"no lab records" error, and the result then depends neither on the numeric
primitives nor on the optimizer (so neither the EKF forward pass nor the
optimizer is consulted); a non-empty lab sequence never yields that error
even with no field records, and field records influence the fit only
through the phi-channel prior. -/
theorem update_state_empty_labs (pr pr' : NumPrims) (opt opt' : Optimizer)
    (fields fields₁ fields₂ : List FieldRecord) (labs : List LabRecord)
    (hlabs : labs ≠ [])
    (hphi : phiPrior pr fields₁ = phiPrior pr fields₂) :
    update_state pr opt true [] fields = .errNoLabRecords
    ∧ update_state pr opt true [] fields = update_state pr' opt' true [] fields
    ∧ update_state pr opt true labs [] ≠ .errNoLabRecords
    ∧ update_state pr opt true labs fields₁ = update_state pr opt true labs fields₂ := by
  refine ⟨rfl, rfl, ?_, ?_⟩
  · cases labs with
    | nil => exact absurd rfl hlabs
    | cons l0 rest =>
        simp only [update_state]
        split
        · simp
        · split <;> simp
  · cases labs with
    | nil => rfl
    | cons l0 rest => simp only [update_state, hphi]

/-- Witness for C9 at concrete inputs. -/
theorem update_state_empty_labs_witness :
    update_state idPrims (fun _ g _ => ⟨true, g, ""⟩) true [] [⟨0, 1, 2⟩]
        = .errNoLabRecords
    ∧ update_state idPrims (fun _ g _ => ⟨true, g, ""⟩) true [] [⟨0, 1, 2⟩]
        = update_state ⟨fun _ => 0, fun _ => 0, fun _ => 0, 3⟩
            (fun _ _ _ => ⟨false, ⟨0, 0, 0, 0, 0⟩, "x"⟩) true [] [⟨0, 1, 2⟩]
    ∧ update_state idPrims (fun _ g _ => ⟨true, g, ""⟩) true [⟨1, 1/100⟩] []
        ≠ .errNoLabRecords
    ∧ update_state idPrims (fun _ g _ => ⟨true, g, ""⟩) true [⟨1, 1/100⟩] []
        = update_state idPrims (fun _ g _ => ⟨true, g, ""⟩) true [⟨1, 1/100⟩] [] :=
  update_state_empty_labs idPrims ⟨fun _ => 0, fun _ => 0, fun _ => 0, 3⟩
    (fun _ g _ => ⟨true, g, ""⟩) (fun _ _ _ => ⟨false, ⟨0, 0, 0, 0, 0⟩, "x"⟩)
    [⟨0, 1, 2⟩] [] [] [⟨1, 1/100⟩] (by simp) rfl

/-- C8 counterexample: the persisted posterior does not carry the fitted
observation-noise scale — the `state_posteriors` table has no `sigma_obs`
(nor `sigma_lab`) column, and the stored record is unchanged under a change
of the fitted `sigma_lab`. -/
theorem posterior_missing_sigma_obs :
    "sigma_obs" ∉ statePosteriorColumns
    ∧ "sigma_lab" ∉ statePosteriorColumns
    ∧ posteriorOf ⟨0, 0, 1, 1, 5⟩ ⟨0, 0, 1, 1, 0⟩
        = posteriorOf ⟨0, 0, 1, 1, 7⟩ ⟨0, 0, 1, 1, 0⟩ := by
  refine ⟨by decide, by decide, rfl⟩

/-- C8 amended: every successful fit stores a posterior carrying the four
latent-state fields of the final filter state together with the fitted
`alpha_r`, `alpha_phi`, `sigma_r` and `sigma_phi` — but not `sigma_obs`,
which is absent from the stored record. -/
theorem update_state_posterior_fields (pr : NumPrims) (opt : Optimizer)
    (labs : List LabRecord) (fields : List FieldRecord)
    (post : PosteriorRecord) (nll : ℚ)
    (h : update_state pr opt true labs fields = .ok post nll) :
    (∃ fitted fin, post = posteriorOf fitted fin
      ∧ post.alpha_r = fitted.alpha_r ∧ post.alpha_phi = fitted.alpha_phi
      ∧ post.sigma_r = fitted.sigma_r ∧ post.sigma_phi = fitted.sigma_phi
      ∧ post.eta_r0_mean = fin.eta_r ∧ post.eta_r0_var = fin.P_r
      ∧ post.eta_phi0_mean = fin.eta_phi ∧ post.eta_phi0_var = fin.P_phi)
    ∧ (∀ (f : EKFParams) (g : EKFState) (c : ℚ),
        posteriorOf { f with sigma_lab := c } g = posteriorOf f g)
    ∧ "sigma_obs" ∉ statePosteriorColumns := by
  refine ⟨?_, fun f g c => rfl, by decide⟩
  cases labs with
  | nil => simp [update_state] at h
  | cons l0 rest =>
      simp only [update_state] at h
      split at h
      · simp at h
      · split at h
        · simp at h
        · rw [FitOutcome.ok.injEq] at h
          exact ⟨_, _, h.1.symm, by rw [← h.1]; rfl, by rw [← h.1]; rfl,
            by rw [← h.1]; rfl, by rw [← h.1]; rfl, by rw [← h.1]; rfl,
            by rw [← h.1]; rfl, by rw [← h.1]; rfl, by rw [← h.1]; rfl⟩

/-- The posterior stored by a concrete successful fit: identity primitives,
an optimizer returning its initial guess, one lab record `(1, 0.01)` and no
field records. -/
def postW : PosteriorRecord :=
  ⟨1/100, 101/10100000100, 0, 101/100, 0, 0, 1/10, 1/10⟩

/-- Witness for the amended C8 at a concrete successful fit. -/
theorem update_state_posterior_fields_witness :
    (∃ fitted fin, postW = posteriorOf fitted fin
      ∧ postW.alpha_r = fitted.alpha_r ∧ postW.alpha_phi = fitted.alpha_phi
      ∧ postW.sigma_r = fitted.sigma_r ∧ postW.sigma_phi = fitted.sigma_phi
      ∧ postW.eta_r0_mean = fin.eta_r ∧ postW.eta_r0_var = fin.P_r
      ∧ postW.eta_phi0_mean = fin.eta_phi ∧ postW.eta_phi0_var = fin.P_phi)
    ∧ (∀ (f : EKFParams) (g : EKFState) (c : ℚ),
        posteriorOf { f with sigma_lab := c } g = posteriorOf f g)
    ∧ "sigma_obs" ∉ statePosteriorColumns :=
  update_state_posterior_fields idPrims (fun _ g _ => ⟨true, g, ""⟩)
    [⟨1, 1/100⟩] [] postW 0 (by
      norm_num [update_state, phiPrior, initialGuess, popVar, mean, idPrims, ekfRun,
        initState, floorSigmas, MIN_SIGMA, ekfStep, postW, posteriorOf,
        extended_kalman_filter, ekfBounds, max_def])

/-! ## Theorems about the simulation loop -/

/-- C5: month-by-month risk resolution — a sequence indexes by the month
and clamps to its last element past the end; a mapping looks up the month
key, then the "default" key, then falls back to 1; a scalar applies to
every month; the monthly removal is multiplied by the resolved multiplier;
and the mapping of example 4 doubles only month 0. -/
theorem risk_multiplier_resolution :
    (∀ (l : List ℚ) (t : Nat) (h : t < l.length),
        resolveRisk (.seq l) t = l.get ⟨t, h⟩)
    ∧ (∀ (l : List ℚ) (t : Nat) (h : l ≠ []), l.length ≤ t →
        resolveRisk (.seq l) t = l.getLast h)
    ∧ (∀ (m : List (String × ℚ)) (t : Nat) (v : ℚ),
        m.lookup (toString t) = some v → resolveRisk (.map m) t = v)
    ∧ (∀ (m : List (String × ℚ)) (t : Nat) (d : ℚ),
        m.lookup (toString t) = none → m.lookup "default" = some d →
        resolveRisk (.map m) t = d)
    ∧ (∀ (m : List (String × ℚ)) (t : Nat),
        m.lookup (toString t) = none → m.lookup "default" = none →
        resolveRisk (.map m) t = 1)
    ∧ (∀ (c : ℚ) (t : Nat), resolveRisk (.scalar c) t = c)
    ∧ (∀ (pr : NumPrims) (A K : ℚ) (rs : RiskSource) (t : Nat) (s : SimState),
        monthTerm pr A K (some rs) t s
          = A * K * pr.exp s.eta_r * expit pr s.eta_phi * resolveRisk rs t)
    ∧ (resolveRisk (.map [("0", 2), ("default", 1)]) 0 = 2
        ∧ ∀ t : Nat, t < SIMULATION_MONTHS → 0 < t →
            resolveRisk (.map [("0", 2), ("default", 1)]) t = 1) := by
  refine ⟨?_, ?_, ?_, ?_, ?_, fun c t => rfl, fun pr A K rs t s => rfl, ?_, ?_⟩
  · intro l t h
    simp [resolveRisk, h]
  · intro l t h hle
    rw [resolveRisk, dif_neg (by omega), List.getLast?_eq_getLast l h]
  · intro m t v hv
    rw [resolveRisk, hv]
  · intro m t d ht hd
    rw [resolveRisk, ht, hd]
  · intro m t ht hd
    rw [resolveRisk, ht, hd]
  · rfl
  · decide

/-- Witness for C5 at concrete sources and months. -/
theorem risk_multiplier_resolution_witness :
    resolveRisk (.seq [3, 4]) 0 = 3
    ∧ resolveRisk (.seq [3, 4]) 7 = 4
    ∧ resolveRisk (.map [("0", 2), ("default", 1)]) 0 = 2
    ∧ resolveRisk (.map [("0", 2), ("default", 1)]) 5 = 1
    ∧ resolveRisk (.map [("2", 3)]) 5 = 1 := by
  have h := risk_multiplier_resolution
  exact ⟨h.1 [3, 4] 0 (by norm_num), h.2.1 [3, 4] 7 (by simp) (by norm_num),
    h.2.2.1 [("0", 2), ("default", 1)] 0 2 rfl,
    h.2.2.2.1 [("0", 2), ("default", 1)] 5 1 rfl rfl,
    h.2.2.2.2.1 [("2", 3)] 5 rfl rfl⟩

theorem simLoop_congr (pr : NumPrims) (p : PosteriorRecord) (A K : ℚ)
    (risk : Option RiskSource) (z₁ z₂ : Nat → ℚ) (base : Nat) :
    ∀ (m t : Nat) (s : SimState) (acc : ℚ),
      (∀ k, base + 2 * t ≤ k → k < base + 2 * (t + m) → z₁ k = z₂ k) →
      simLoop pr p A K risk z₁ base t m s acc
        = simLoop pr p A K risk z₂ base t m s acc := by
  intro m
  induction m with
  | zero => intro t s acc _; rfl
  | succ m ih =>
      intro t s acc hz
      have h1 : z₁ (base + 2 * t) = z₂ (base + 2 * t) :=
        hz _ (le_refl _) (by omega)
      have h2 : z₁ (base + 2 * t + 1) = z₂ (base + 2 * t + 1) :=
        hz _ (by omega) (by omega)
      simp only [simLoop]
      rw [h1, h2]
      exact ih (t + 1) _ _ (fun k hk1 hk2 => hz k (by omega) (by omega))

theorem simRunTotal_congr (pr : NumPrims) (p : PosteriorRecord) (A K : ℚ)
    (risk : Option RiskSource) (z₁ z₂ : Nat → ℚ) (base : Nat)
    (h : ∀ k, base ≤ k → k < base + drawsPerRun → z₁ k = z₂ k) :
    simRunTotal pr p A K risk z₁ base = simRunTotal pr p A K risk z₂ base := by
  have hd : drawsPerRun = 242 := rfl
  simp only [simRunTotal]
  rw [h base (le_refl _) (by rw [hd]; omega),
    h (base + 1) (by omega) (by rw [hd]; omega)]
  exact simLoop_congr pr p A K risk z₁ z₂ (base + 2) SIMULATION_MONTHS 0 _ 0
    (fun k hk1 hk2 => h k (by omega)
      (by rw [hd]; rw [show SIMULATION_MONTHS = 120 from rfl] at hk2; omega))

/-- C2: the simulation ensemble is a deterministic function of the
standard-normal stream it consumes (so a fixed seed reproduces it bit for
bit), each run's total depends only on the draws in its own window of the
stream, and the windows of distinct runs are disjoint — no draw is shared
or reused across runs. -/
theorem simulate_seed_reproducible (pr : NumPrims) (p : PosteriorRecord)
    (A K : ℚ) (risk : Option RiskSource) (n i j : Nat)
    (z₁ z₂ w₁ w₂ : Nat → ℚ)
    (hz : ∀ k, k < drawsPerRun * n → z₁ k = z₂ k)
    (hw : ∀ k, drawsPerRun * i ≤ k → k < drawsPerRun * (i + 1) → w₁ k = w₂ k)
    (hij : i ≠ j) :
    simulate pr p A K n risk z₁ = simulate pr p A K n risk z₂
    ∧ simRunTotal pr p A K risk w₁ (drawsPerRun * i)
        = simRunTotal pr p A K risk w₂ (drawsPerRun * i)
    ∧ ∀ k, drawsPerRun * i ≤ k → k < drawsPerRun * (i + 1) →
        ¬(drawsPerRun * j ≤ k ∧ k < drawsPerRun * (j + 1)) := by
  have hd : drawsPerRun = 242 := rfl
  refine ⟨?_, ?_, ?_⟩
  · unfold simulate
    apply List.map_congr_left
    intro a ha
    have han : a < n := List.mem_range.mp ha
    have hrun : simRunTotal pr p A K risk z₁ (drawsPerRun * a)
        = simRunTotal pr p A K risk z₂ (drawsPerRun * a) := by
      apply simRunTotal_congr
      intro k hk1 hk2
      apply hz
      rw [hd] at hk1 hk2 ⊢
      omega
    rw [hrun]
  · exact simRunTotal_congr pr p A K risk w₁ w₂ (drawsPerRun * i)
      (fun k hk1 hk2 => hw k hk1 (by rw [hd] at hk2 ⊢; omega))
  · intro k hk1 hk2 hk34
    rw [hd] at hk1 hk2 hk34
    omega

/-- Witness for C2 at a two-run ensemble with a constant stream. -/
theorem simulate_seed_reproducible_witness :
    simulate idPrims postW 1 1 2 none (fun _ => 0)
        = simulate idPrims postW 1 1 2 none (fun _ => 0)
    ∧ simRunTotal idPrims postW 1 1 none (fun _ => 0) (drawsPerRun * 0)
        = simRunTotal idPrims postW 1 1 none (fun _ => 0) (drawsPerRun * 0)
    ∧ ∀ k, drawsPerRun * 0 ≤ k → k < drawsPerRun * (0 + 1) →
        ¬(drawsPerRun * 1 ≤ k ∧ k < drawsPerRun * (1 + 1)) :=
  simulate_seed_reproducible idPrims postW 1 1 none 2 0 1 _ _ _ _
    (fun _ _ => rfl) (fun _ _ _ => rfl) (by omega)

/-- The state reached after iterating `advance` with the draws the loop
reads from month `t` on: `pathFrom … t j` is the loop state after `j`
further months. -/
def pathFrom (p : PosteriorRecord) (z : Nat → ℚ) (base : Nat) (s : SimState)
    (t : Nat) : Nat → SimState
  | 0 => s
  | j + 1 => advance p (pathFrom p z base s t j)
      (z (base + 2 * (t + j))) (z (base + 2 * (t + j) + 1))

theorem pathFrom_shift (p : PosteriorRecord) (z : Nat → ℚ) (base : Nat) :
    ∀ (j t : Nat) (s : SimState),
      pathFrom p z base
          (advance p s (z (base + 2 * t)) (z (base + 2 * t + 1))) (t + 1) j
        = pathFrom p z base s t (j + 1) := by
  intro j
  induction j with
  | zero =>
      intro t s
      simp [pathFrom]
  | succ j ih =>
      intro t s
      have harith : t + 1 + j = t + (j + 1) := by omega
      simp only [pathFrom, ih, harith]

theorem simLoop_eq_sum (pr : NumPrims) (p : PosteriorRecord) (A K : ℚ)
    (risk : Option RiskSource) (z : Nat → ℚ) (base : Nat) :
    ∀ (m t : Nat) (s : SimState) (acc : ℚ),
      simLoop pr p A K risk z base t m s acc
        = acc + ∑ j in Finset.range m,
            monthTerm pr A K risk (t + j) (pathFrom p z base s t (j + 1)) := by
  intro m
  induction m with
  | zero => intro t s acc; simp [simLoop]
  | succ m ih =>
      intro t s acc
      have hstep : simLoop pr p A K risk z base t (m + 1) s acc
          = simLoop pr p A K risk z base (t + 1) m
              (advance p s (z (base + 2 * t)) (z (base + 2 * t + 1)))
              (acc + monthTerm pr A K risk t
                (advance p s (z (base + 2 * t)) (z (base + 2 * t + 1)))) := rfl
      rw [hstep, ih, Finset.sum_range_succ']
      have hterm : ∀ j ∈ Finset.range m,
          monthTerm pr A K risk (t + 1 + j)
              (pathFrom p z base
                (advance p s (z (base + 2 * t)) (z (base + 2 * t + 1))) (t + 1) (j + 1))
            = monthTerm pr A K risk (t + (j + 1)) (pathFrom p z base s t (j + 1 + 1)) := by
        intro j _
        rw [pathFrom_shift p z base (j + 1) t s]
        have harith : t + 1 + j = t + (j + 1) := by omega
        rw [harith]
      rw [Finset.sum_congr rfl hterm]
      have hpath0 : pathFrom p z base s t (0 + 1)
          = advance p s (z (base + 2 * t)) (z (base + 2 * t + 1)) := by
        simp [pathFrom]
      rw [hpath0, Nat.add_zero, add_assoc,
        add_comm (monthTerm pr A K risk t
          (advance p s (z (base + 2 * t)) (z (base + 2 * t + 1))))]
      simp only [Nat.add_zero]

theorem pathFrom_eta_r (p : PosteriorRecord) (z : Nat → ℚ) (b : Nat)
    (s : SimState) :
    ∀ j, (pathFrom p z b s 0 (j + 1)).eta_r
      = etaRPath p s.eta_r (fun k => z (b + 2 * k)) j := by
  intro j
  induction j with
  | zero => rfl
  | succ j ih =>
      show (pathFrom p z b s 0 (j + 1)).eta_r + p.alpha_r
          + p.sigma_r * z (b + 2 * (0 + (j + 1)))
        = etaRPath p s.eta_r (fun k => z (b + 2 * k)) (j + 1)
      rw [ih, Nat.zero_add]
      rfl

theorem pathFrom_eta_phi (p : PosteriorRecord) (z : Nat → ℚ) (b : Nat)
    (s : SimState) :
    ∀ j, (pathFrom p z b s 0 (j + 1)).eta_phi
      = etaPhiPath p s.eta_phi (fun k => z (b + 2 * k + 1)) j := by
  intro j
  induction j with
  | zero => rfl
  | succ j ih =>
      show (pathFrom p z b s 0 (j + 1)).eta_phi + p.alpha_phi
          + p.sigma_phi * z (b + 2 * (0 + (j + 1)) + 1)
        = etaPhiPath p s.eta_phi (fun k => z (b + 2 * k + 1)) (j + 1)
      rw [ih, Nat.zero_add]
      rfl

/-- C3: each run's recorded total is the sum over the 120 months of
`A·K·exp(eta_r)·logistic(eta_phi)` along latent paths that advance by drift
plus noise from the run's sampled initial state, scaled by the month's
resolved risk multiplier; and `simulate` records one such total per run
index. -/
theorem sim_run_total_refines_spec (pr : NumPrims) (p : PosteriorRecord)
    (A K : ℚ) (risk : Option RiskSource) (z : Nat → ℚ) (base n : Nat) :
    simRunTotal pr p A K risk z base
      = ∑ t in Finset.range SIMULATION_MONTHS,
          A * K * pr.exp (etaRPath p (p.eta_r0_mean + pr.sqrt p.eta_r0_var * z base)
              (fun k => z (base + 2 + 2 * k)) t)
            * expit pr (etaPhiPath p (p.eta_phi0_mean + pr.sqrt p.eta_phi0_var * z (base + 1))
              (fun k => z (base + 2 + 2 * k + 1)) t)
            * riskFactor risk t
    ∧ simulate pr p A K n risk z
        = (List.range n).map (fun r => (r, simRunTotal pr p A K risk z (drawsPerRun * r)))
    ∧ (simulate pr p A K n risk z).length = n
    ∧ ∀ i : Fin n, ((i : Nat), simRunTotal pr p A K risk z (drawsPerRun * (i : Nat)))
        ∈ simulate pr p A K n risk z := by
  refine ⟨?_, rfl, by simp [simulate], ?_⟩
  · simp only [simRunTotal]
    rw [simLoop_eq_sum, zero_add]
    refine Finset.sum_congr rfl fun j _ => ?_
    have hr := pathFrom_eta_r p z (base + 2)
      ⟨p.eta_r0_mean + pr.sqrt p.eta_r0_var * z base,
        p.eta_phi0_mean + pr.sqrt p.eta_phi0_var * z (base + 1)⟩ j
    have hphi := pathFrom_eta_phi p z (base + 2)
      ⟨p.eta_r0_mean + pr.sqrt p.eta_r0_var * z base,
        p.eta_phi0_mean + pr.sqrt p.eta_phi0_var * z (base + 1)⟩ j
    cases risk with
    | none => simp only [monthTerm, riskFactor, Nat.zero_add, hr, hphi, mul_one]
    | some rs => simp only [monthTerm, riskFactor, Nat.zero_add, hr, hphi]
  · intro i
    exact List.mem_map.mpr ⟨(i : Nat), List.mem_range.mpr i.isLt, rfl⟩

/-! ## Theorems about `summarize` -/

theorem summarize_eval (pr : NumPrims) (rows : List (Option ℚ))
    (targetOpt appRate : Option ℚ) (multiplier fallback : ℚ)
    (h : rows.filterMap id ≠ []) :
    summarize pr rows targetOpt appRate multiplier fallback
      = .ok
        { mean := mean (rows.filterMap id)
          std := popStd pr (rows.filterMap id)
          min := listMin (rows.filterMap id)
          max := listMax (rows.filterMap id)
          p5 := percentile (rows.filterMap id) 5
          p50 := percentile (rows.filterMap id) 50
          p95 := percentile (rows.filterMap id) 95
          count := (rows.filterMap id).length
          target := resolveTarget targetOpt appRate multiplier fallback
          p_hit := pHit (rows.filterMap id)
            (resolveTarget targetOpt appRate multiplier fallback) } := by
  cases rows with
  | nil => simp at h
  | cons r rest =>
      simp only [summarize]
      rw [if_neg (by simpa [List.length_eq_zero] using h)]

/-- C4: on any stored rows with at least one non-null total, `summarize`
returns the mean, the population standard deviation, the min, the max, the
three linearly interpolated percentiles, the count, the resolved target and
the fraction of totals at or above the target — where an absent explicit
target defaults to the application rate times the default multiplier when
the rate is known, else to the fallback constant. -/
theorem summarize_statistics_spec (pr : NumPrims) (rows : List (Option ℚ))
    (targetOpt appRate : Option ℚ) (multiplier fallback : ℚ)
    (h : rows.filterMap id ≠ []) :
    summarize pr rows targetOpt appRate multiplier fallback
      = .ok
        { mean := (rows.filterMap id).sum / ((rows.filterMap id).length : ℚ)
          std := pr.sqrt ((((rows.filterMap id).map
              (fun x => (x - mean (rows.filterMap id)) ^ 2)).sum)
                / ((rows.filterMap id).length : ℚ))
          min := listMin (rows.filterMap id)
          max := listMax (rows.filterMap id)
          p5 := percentile (rows.filterMap id) 5
          p50 := percentile (rows.filterMap id) 50
          p95 := percentile (rows.filterMap id) 95
          count := (rows.filterMap id).length
          target := resolveTarget targetOpt appRate multiplier fallback
          p_hit := ((rows.filterMap id).countP
              (fun x => resolveTarget targetOpt appRate multiplier fallback ≤ x) : ℚ)
            / ((rows.filterMap id).length : ℚ) }
    ∧ (∀ (t : ℚ) (a : Option ℚ), resolveTarget (some t) a multiplier fallback = t)
    ∧ (∀ a : ℚ, resolveTarget none (some a) multiplier fallback = a * multiplier)
    ∧ resolveTarget none none multiplier fallback = fallback := by
  refine ⟨?_, fun t a => rfl, fun a => rfl, rfl⟩
  rw [summarize_eval pr rows targetOpt appRate multiplier fallback h]
  simp only [mean, popStd, popVar, pHit, List.countP_eq_length_filter]

/-- Witness for C4: the worked example `summarize([10,20,30,40,50], 30)`
with `p_hit = 3/5` and `p50 = 30`. -/
theorem summarize_statistics_spec_witness :
    summarize idPrims [some 10, some 20, some 30, some 40, some 50] (some 30) none 0 0
      = .ok { mean := 30, std := 200, min := 10, max := 50, p5 := 12, p50 := 30,
              p95 := 48, count := 5, target := 30, p_hit := 3/5 } := by
  have h := (summarize_statistics_spec idPrims
    [some 10, some 20, some 30, some 40, some 50] (some 30) none 0 0 (by simp)).1
  rw [h, show List.filterMap id [some 10, some 20, some 30, some 40, some 50]
    = ([10, 20, 30, 40, 50] : List ℚ) from rfl]
  norm_num [mean, resolveTarget, idPrims, percentile, sortRats, insertSorted,
    listMin, listMax, min_def, max_def, SummOutcome.ok.injEq, SummaryStats.mk.injEq,
    List.countP_cons, List.countP_nil, List.filter]
  norm_num [show ((2:ℤ).toNat) = 2 from rfl, show ((3:ℤ).toNat) = 3 from rfl,
    show ((0:ℤ).toNat) = 0 from rfl]

/-- C10: `summarize` drops null stored totals before computing anything —
the result on the raw rows equals the result on the non-null totals alone —
and when rows exist but every total is null it returns the
"no valid simulation results" error. -/
theorem summarize_excludes_null_totals (pr : NumPrims) (rows : List (Option ℚ))
    (targetOpt appRate : Option ℚ) (multiplier fallback : ℚ)
    (hrows : rows ≠ []) :
    (rows.filterMap id = [] →
      summarize pr rows targetOpt appRate multiplier fallback = .errNoValidResults)
    ∧ (rows.filterMap id ≠ [] →
      summarize pr rows targetOpt appRate multiplier fallback
        = summarize pr ((rows.filterMap id).map some) targetOpt appRate multiplier fallback) := by
  constructor
  · intro hnull
    cases rows with
    | nil => exact absurd rfl hrows
    | cons r rest =>
        simp only [summarize]
        rw [if_pos (by simp [hnull])]
  · intro hsome
    have hmapped : ((rows.filterMap id).map some).filterMap id = rows.filterMap id := by
      simp [List.filterMap_map]
    rw [summarize_eval pr rows targetOpt appRate multiplier fallback hsome,
      summarize_eval pr ((rows.filterMap id).map some) targetOpt appRate multiplier fallback
        (by rw [hmapped]; exact hsome), hmapped]

/-- Witness for C10: an all-null row list errors, and a null row changes
nothing next to a non-null one. -/
theorem summarize_excludes_null_totals_witness :
    summarize idPrims [none] none none 0 0 = .errNoValidResults
    ∧ summarize idPrims [none, some 3] none none 0 0
        = summarize idPrims (([none, some 3].filterMap id).map some) none none 0 0 :=
  ⟨(summarize_excludes_null_totals idPrims [none] none none 0 0 (by simp)).1 (by simp),
    (summarize_excludes_null_totals idPrims [none, some 3] none none 0 0 (by simp)).2 (by simp)⟩

end ERW
